import Mathlib

/-!
Shallow embedding of the data-shaping pipeline of the South Africa dam
dashboard (files `main.py` and `pages/historical_trends.py`).

The store is modelled as a list of `Report` documents.  Numeric document
fields are rationals; dates are integers (only their order matters to the
code).  Pandas rows whose optional field is missing hold `none` (the
DataFrame would hold `NaN`, whose comparisons are all false).
-/

/-- One weekly dam report document, as projected by the queries in the
source.  Optional fields model documents that lack the key (pandas `NaN`). -/
structure Report where
  dam : String
  province : String
  river : String
  report_date : ℤ
  full_storage_capacity : ℚ
  this_week : ℚ
  last_week : Option ℚ
  last_year : Option ℚ
  wall_height_m : Option ℚ
  year_completed : Option ℤ
  nearest_locale : Option String
  lat_long : Option (List ℚ)
deriving DecidableEq

/-- The color palette of `main.py` (`PALETTE`), index 0 = very low
("#e60000") through index 4 = high ("#0959df"). -/
def PALETTE : List String :=
  ["#e60000", "#ffaa02", "#fffe03", "#4de600", "#0959df"]

/-- Embedding of `get_color` (main.py lines 88-100): the if/elif chain over
the percent value. -/
def get_color (value : ℚ) : String :=
  if value < 25 then PALETTE[0]!
  else if value < 50 then PALETTE[1]!
  else if value < 75 then PALETTE[2]!
  else if value < 90 then PALETTE[3]!
  else PALETTE[4]!

/-- Severity index of the color bucket: 0 = very-low, 1 = moderately-low,
2 = near-normal, 3 = moderately-high, 4 = high.  This mirrors the same
if/elif chain as `get_color`; the map legend in the source names the five
palette entries in exactly this order. -/
def colorIdx (value : ℚ) : ℕ :=
  if value < 25 then 0
  else if value < 50 then 1
  else if value < 75 then 2
  else if value < 90 then 3
  else 4

/-- Embedding of `get_marker_size` (main.py lines 333-334).  The closure
captures `min_size, max_size = 6, 15` and the min/max rescaled capacity of
the current row set; the division is guarded by `if max_fsc > min_fsc
else 0` exactly as in the source. -/
def get_marker_size (min_fsc max_fsc fsc : ℚ) : ℚ :=
  6 + (15 - 6) * (if min_fsc < max_fsc then (fsc - min_fsc) / (max_fsc - min_fsc) else 0)

/-- Minimum of a nonempty list of rationals (pandas `Series.min`); `0` on
the empty list, which the dashboard never reaches because `get_data` fails
earlier on an empty result set. -/
def listMin : List ℚ → ℚ
  | [] => 0
  | x :: xs => xs.foldl min x

/-- Maximum of a nonempty list of rationals (pandas `Series.max`). -/
def listMax : List ℚ → ℚ
  | [] => 0
  | x :: xs => xs.foldl max x

-- Generic facts about foldl min / foldl max, used for C5, C6 and C9.

theorem foldl_min_mem {α : Type} [LinearOrder α] :
    ∀ (xs : List α) (x : α), xs.foldl min x ∈ x :: xs := by
  intro xs
  induction xs with
  | nil => intro x; simp
  | cons y ys ih =>
    intro x
    simp only [List.foldl_cons]
    have h := ih (min x y)
    rcases List.mem_cons.mp h with h' | h'
    · rcases min_choice x y with hm | hm
      · rw [h', hm]
        exact List.mem_cons_self _ _
      · rw [h', hm]
        exact List.mem_cons_of_mem _ (List.mem_cons_self _ _)
    · exact List.mem_cons_of_mem _ (List.mem_cons_of_mem _ h')

theorem foldl_min_le {α : Type} [LinearOrder α] :
    ∀ (xs : List α) (x : α), ∀ v ∈ x :: xs, xs.foldl min x ≤ v := by
  intro xs
  induction xs with
  | nil => intro x v hv; simp at hv; simp [hv]
  | cons y ys ih =>
    intro x v hv
    simp only [List.foldl_cons]
    rcases List.mem_cons.mp hv with h' | h'
    · rw [h']
      calc ys.foldl min (min x y) ≤ min x y := ih (min x y) _ (List.mem_cons_self _ _)
        _ ≤ x := min_le_left _ _
    · rcases List.mem_cons.mp h' with h'' | h''
      · rw [h'']
        calc ys.foldl min (min x y) ≤ min x y := ih (min x y) _ (List.mem_cons_self _ _)
          _ ≤ y := min_le_right _ _
      · exact ih (min x y) v (List.mem_cons_of_mem _ h'')

theorem foldl_max_mem {α : Type} [LinearOrder α] :
    ∀ (xs : List α) (x : α), xs.foldl max x ∈ x :: xs := by
  intro xs
  induction xs with
  | nil => intro x; simp
  | cons y ys ih =>
    intro x
    simp only [List.foldl_cons]
    have h := ih (max x y)
    rcases List.mem_cons.mp h with h' | h'
    · rcases max_choice x y with hm | hm
      · rw [h', hm]
        exact List.mem_cons_self _ _
      · rw [h', hm]
        exact List.mem_cons_of_mem _ (List.mem_cons_self _ _)
    · exact List.mem_cons_of_mem _ (List.mem_cons_of_mem _ h')

theorem foldl_max_ge {α : Type} [LinearOrder α] :
    ∀ (xs : List α) (x : α), ∀ v ∈ x :: xs, v ≤ xs.foldl max x := by
  intro xs
  induction xs with
  | nil => intro x v hv; simp at hv; simp [hv]
  | cons y ys ih =>
    intro x v hv
    simp only [List.foldl_cons]
    rcases List.mem_cons.mp hv with h' | h'
    · rw [h']
      calc x ≤ max x y := le_max_left _ _
        _ ≤ ys.foldl max (max x y) := ih (max x y) _ (List.mem_cons_self _ _)
    · rcases List.mem_cons.mp h' with h'' | h''
      · rw [h'']
        calc y ≤ max x y := le_max_right _ _
          _ ≤ ys.foldl max (max x y) := ih (max x y) _ (List.mem_cons_self _ _)
      · exact ih (max x y) v (List.mem_cons_of_mem _ h'')

theorem listMin_mem (l : List ℚ) (h : l ≠ []) : listMin l ∈ l := by
  cases l with
  | nil => exact absurd rfl h
  | cons x xs => exact foldl_min_mem xs x

theorem listMin_le (l : List ℚ) (v : ℚ) (hv : v ∈ l) : listMin l ≤ v := by
  cases l with
  | nil => simp at hv
  | cons x xs => exact foldl_min_le xs x v hv

theorem listMax_mem (l : List ℚ) (h : l ≠ []) : listMax l ∈ l := by
  cases l with
  | nil => exact absurd rfl h
  | cons x xs => exact foldl_max_mem xs x

theorem le_listMax (l : List ℚ) (v : ℚ) (hv : v ∈ l) : v ≤ listMax l := by
  cases l with
  | nil => simp at hv
  | cons x xs => exact foldl_max_ge xs x v hv

/-- Round a rational to the nearest integer, ties to even.  This is the
rounding Python applies when formatting a float with one decimal digit
(the diff is scaled by 10 before calling this). -/
def rhe (q : ℚ) : ℤ :=
  let f : ℤ := ⌊q⌋
  if q - f < 1 / 2 then f
  else if (1 : ℚ) / 2 < q - f then f + 1
  else if f % 2 = 0 then f else f + 1

/-- Decimal rendering of the magnitude of a change, rounded to one decimal
digit: the digits of round(10 * abs d) with a decimal point inserted.
This is the magnitude part of the Python f-string with format spec .1f. -/
def magStr (d : ℚ) : String :=
  let n : ℕ := (rhe (10 * |d|)).toNat
  toString (n / 10) ++ "." ++ toString (n % 10)

/-- Embedding of the Python one-decimal float format applied to the signed
change value: Python prints the sign of the value followed by the rounded
magnitude, so a negative value renders as minus sign then magnitude. -/
def fmt1 (q : ℚ) : String :=
  (if q < 0 then "-" else "") ++ magStr q

/-- Embedding of the Weekly Change lambda of `get_data` (main.py lines
172-181): up arrow when this week exceeds last week, down arrow when below,
and the fixed literal otherwise.  The formatted value is the signed
difference, exactly as in the f-strings of the source. -/
def weeklyChange (this_week last_week : ℚ) : String :=
  if last_week < this_week then "🔼 " ++ fmt1 (this_week - last_week) ++ "%"
  else if this_week < last_week then "🔻 " ++ fmt1 (this_week - last_week) ++ "%"
  else "◼ 0%"

/-- One projected table row: the report fields kept by `get_data` after
renaming, with the capacity rescaled, the Weekly Change string, the numeric
change, and the raw last_week column dropped. -/
structure TableRow where
  dam : String
  province : String
  river : String
  fsc_million : ℚ
  this_week : ℚ
  last_year : Option ℚ
  wall_height_m : Option ℚ
  year_completed : Option ℤ
  nearest_locale : Option String
  lat_long : Option (List ℚ)
  weekly_change : String
  change_numeric : Option ℚ
deriving DecidableEq

/-- Projection of one report into a table row, as performed by `get_data`
(main.py lines 165-187).  A missing last_week is pandas NaN there: both
strict comparisons in the lambda are false, so the row gets the fixed
literal, and Change_Numeric is NaN (modelled as none). -/
def mkTableRow (r : Report) : TableRow where
  dam := r.dam
  province := r.province
  river := r.river
  fsc_million := r.full_storage_capacity / 1000000
  this_week := r.this_week
  last_year := r.last_year
  wall_height_m := r.wall_height_m
  year_completed := r.year_completed
  nearest_locale := r.nearest_locale
  lat_long := r.lat_long
  weekly_change :=
    match r.last_week with
    | none => "◼ 0%"
    | some lw => weeklyChange r.this_week lw
  change_numeric := r.last_week.map (fun lw => r.this_week - lw)

/-- Embedding of `get_data` (main.py lines 145-189).  The two optional
filters mirror the query dict built from the date and province selections
(the sentinel All omits the filter).  When the query matches nothing,
`pd.DataFrame([])` has no columns at all, so the very next line,
`df[TABLE_COLUMNS[full_storage_capacity]] / 1e6`, raises a KeyError; the
embedding surfaces that crash as an error value. -/
def get_data (store : List Report) (report_date : Option ℤ) (province : Option String) :
    Except String (List TableRow) :=
  let items := store.filter (fun r =>
    (match report_date with
     | some d => r.report_date == d
     | none => true) &&
    (match province with
     | some p => r.province == p
     | none => true))
  if items.isEmpty then
    Except.error "KeyError: column FSC Million m3 of an empty DataFrame"
  else
    Except.ok (items.map mkTableRow)

/-- One map marker produced by the tab2 loop of main.py (lines 355-365):
position, radius from `get_marker_size`, fill color from `get_color`. -/
structure Marker where
  location : List ℚ
  radius : ℚ
  color : String
deriving DecidableEq

/-- Embedding of the tab2 marker loop of main.py (lines 345-365).  For each
row the source first evaluates `all([loc for loc in row[lat_long]])`; when
the cell holds no list (an absent field is NaN, a float), that iteration
raises a TypeError before the isinstance and length guards are reached, so
the embedding returns an error.  When the cell holds a list, the row is
skipped and counted if any component is falsy (equal to zero) or the length
is not two; otherwise a marker is emitted. -/
def markerLoop (min_fsc max_fsc : ℚ) : List TableRow → Except String (List Marker × ℕ)
  | [] => Except.ok ([], 0)
  | row :: rest =>
    match row.lat_long with
    | none => Except.error "TypeError: float object is not iterable"
    | some xs =>
      if xs.any (fun c => c == 0) || !(xs.length == 2) then
        (markerLoop min_fsc max_fsc rest).map (fun p => (p.1, p.2 + 1))
      else
        (markerLoop min_fsc max_fsc rest).map (fun p =>
          ({ location := xs,
             radius := get_marker_size min_fsc max_fsc row.fsc_million,
             color := get_color row.this_week } :: p.1, p.2))

/-- Minimum rescaled storage capacity over a row set (main.py line 330). -/
def fscMin (rows : List TableRow) : ℚ :=
  listMin (rows.map (fun row => row.fsc_million))

/-- Maximum rescaled storage capacity over a row set (main.py line 331). -/
def fscMax (rows : List TableRow) : ℚ :=
  listMax (rows.map (fun row => row.fsc_million))

/-- Sort order used by `df.sort_values([dam, report_date])` in
`get_historical_data` (historical_trends.py line 92): lexicographic on the
dam name, then the report date. -/
def damDateLE (a b : Report) : Prop :=
  a.dam < b.dam ∨ (a.dam = b.dam ∧ a.report_date ≤ b.report_date)

instance : DecidableRel damDateLE := by
  intro a b
  unfold damDateLE
  infer_instance

instance : IsTotal Report damDateLE := by
  constructor
  intro a b
  rcases lt_trichotomy a.dam b.dam with h | h | h
  · exact Or.inl (Or.inl h)
  · rcases le_total a.report_date b.report_date with hd | hd
    · exact Or.inl (Or.inr ⟨h, hd⟩)
    · exact Or.inr (Or.inr ⟨h.symm, hd⟩)
  · exact Or.inr (Or.inl h)

instance : IsTrans Report damDateLE := by
  constructor
  intro a b c hab hbc
  rcases hab with h1 | ⟨h1, d1⟩
  · rcases hbc with h2 | ⟨h2, _⟩
    · exact Or.inl (h1.trans h2)
    · exact Or.inl (h2 ▸ h1)
  · rcases hbc with h2 | ⟨h2, d2⟩
    · exact Or.inl (h1 ▸ h2)
    · exact Or.inr ⟨h1.trans h2, d1.trans d2⟩

/-- Embedding of `get_historical_data` (historical_trends.py lines 66-94):
fetch the reports whose dam is among the requested names and whose
report_date lies in the inclusive window, then sort ascending by
(dam, report_date). -/
def get_historical_data (store : List Report) (dam_names : List String)
    (start_date end_date : ℤ) : List Report :=
  List.insertionSort damDateLE
    (store.filter (fun r =>
      dam_names.contains r.dam &&
      decide (start_date ≤ r.report_date) && decide (r.report_date ≤ end_date)))

/-- One row of the Summary Statistics table (historical_trends.py lines
224-234).  The standard deviation is tracked through its square so the
whole statistic stays rational: pandas Series.std is the square root of
the sample variance with denominator n - 1, and is NaN (absent) for a
single point. -/
structure DamStatistic where
  dam : String
  province : String
  river : String
  minPct : ℚ
  maxPct : ℚ
  averagePct : ℚ
  currentPct : ℚ
  stdDevSq : Option ℚ
  dataPoints : ℕ
deriving DecidableEq

/-- Per-dam statistic of the stats_data loop (historical_trends.py lines
221-234): filter the fetched frame to one dam; when nothing is left the
dam contributes no entry; otherwise take min, max, mean, the last value of
the date-sorted series as current, the sample variance (none below two
points, matching the NaN that Series.std with ddof 1 yields there), the
point count, and province and river from the first row. -/
def damStat (hist : List Report) (dam : String) : Option DamStatistic :=
  match hist.filter (fun r => r.dam == dam) with
  | [] => none
  | first :: rest =>
    let dd := first :: rest
    let vals := dd.map (fun r => r.this_week)
    let m : ℚ := vals.sum / (vals.length : ℚ)
    some
      { dam := dam
        province := first.province
        river := first.river
        minPct := listMin vals
        maxPct := listMax vals
        averagePct := m
        currentPct := (dd.getLast (List.cons_ne_nil first rest)).this_week
        stdDevSq :=
          if 2 ≤ vals.length then
            some ((vals.map (fun v => (v - m) ^ 2)).sum / ((vals.length : ℚ) - 1))
          else none
        dataPoints := vals.length }

/-- Embedding of the stats_data accumulation loop (historical_trends.py
lines 220-234): one entry per selected dam that has data in the window, in
selection order. -/
def stats_data (hist : List Report) (selected_dams : List String) : List DamStatistic :=
  selected_dams.filterMap (fun dam => damStat hist dam)

/-- Outcomes of the validation section of the Historical Trends page
(historical_trends.py lines 146-161), named as in the specification:
InvalidRange for start after end, NoSelection for an empty dam selection,
NoData when the fetched frame is empty. -/
inductive TrendError where
  | InvalidRange
  | NoSelection
  | NoData
deriving DecidableEq

/-- Embedding of the Historical Trends page flow (historical_trends.py
lines 146-236): validate the date range, then the dam selection, and only
then fetch and aggregate.  The second component counts how many times the
store is queried for historical data, so the no-fetch guarantees are
visible in the result. -/
def trend_page (store : List Report) (start_date end_date : ℤ)
    (selected_dams : List String) : Except TrendError (List DamStatistic) × ℕ :=
  if end_date < start_date then
    (Except.error TrendError.InvalidRange, 0)
  else if selected_dams.isEmpty then
    (Except.error TrendError.NoSelection, 0)
  else
    let hist := get_historical_data store selected_dams start_date end_date
    (if hist.isEmpty then Except.error TrendError.NoData
     else Except.ok (stats_data hist selected_dams), 1)

/-- Embedding of `get_filter_options` (main.py lines 130-140): the distinct
report dates sorted descending and the distinct provinces sorted ascending. -/
def get_filter_options (store : List Report) : List ℤ × List String :=
  (List.insertionSort (fun a b : ℤ => a ≥ b) (store.map (fun r => r.report_date)).dedup,
   List.insertionSort (fun a b : String => a ≤ b) (store.map (fun r => r.province)).dedup)

/-- Embedding of `get_latest_report_date` (main.py lines 120-127): the
report_date of the document that sorts first by report_date descending, or
none when the collection is empty. -/
def get_latest_report_date (store : List Report) : Option ℤ :=
  match store.map (fun r => r.report_date) with
  | [] => none
  | d :: ds => some (ds.foldl max d)

/-- Sample projected row used to instantiate theorems with hypotheses. -/
def sampleRow : TableRow where
  dam := "Vaal Dam"
  province := "Free State"
  river := "Vaal River"
  fsc_million := 3
  this_week := 80
  last_year := some 70
  wall_height_m := some 63
  year_completed := some 1973
  nearest_locale := some "Deneysville"
  lat_long := some [1, 2]
  weekly_change := "◼ 0%"
  change_numeric := none

/-- C4: the color bucket is a pure total step function of the percent value
with five closed-left open-right buckets cut at 25, 50, 75 and 90; each
boundary maps to the upper bucket, get_color renders bucket i as palette
entry i, and the bucket index is monotone non-decreasing in the value.
Being a function of the value alone, it does not depend on any row order. -/
theorem get_color_step_function (v w : ℚ) (hvw : v ≤ w) :
    colorIdx v ≤ colorIdx w ∧
    get_color v = PALETTE[colorIdx v]! ∧
    (v < 25 → colorIdx v = 0) ∧
    (25 ≤ v → v < 50 → colorIdx v = 1) ∧
    (50 ≤ v → v < 75 → colorIdx v = 2) ∧
    (75 ≤ v → v < 90 → colorIdx v = 3) ∧
    (90 ≤ v → colorIdx v = 4) := by
  refine ⟨?_, ?_, ?_, ?_, ?_, ?_, ?_⟩
  · unfold colorIdx
    split_ifs <;> first | omega | linarith
  · unfold get_color colorIdx
    split_ifs <;> rfl
  · intro h1
    unfold colorIdx
    split_ifs <;> first | rfl | linarith
  · intro h1 h2
    unfold colorIdx
    split_ifs <;> first | rfl | linarith
  · intro h1 h2
    unfold colorIdx
    split_ifs <;> first | rfl | linarith
  · intro h1 h2
    unfold colorIdx
    split_ifs <;> first | rfl | linarith
  · intro h1
    unfold colorIdx
    split_ifs <;> first | rfl | linarith

/-- Witness for C4 at the boundary values 25 and 90. -/
theorem get_color_step_function_witness :
    colorIdx 25 ≤ colorIdx 90 ∧ colorIdx 25 = 1 ∧ colorIdx 90 = 4 :=
  ⟨(get_color_step_function 25 90 (by norm_num)).1,
   (get_color_step_function 25 90 (by norm_num)).2.2.2.1 (by norm_num) (by norm_num),
   (get_color_step_function 90 90 le_rfl).2.2.2.2.2.2 (by norm_num)⟩

/-- C5: over any row set, fscMin and fscMax are the least and greatest
rescaled capacities, the marker size of a member row is the linear
interpolation 6 + (15 - 6) * ((fsc - min) / (max - min)) whenever the
capacities are not all equal, and in the degenerate equal-capacity case
the guard turns the contribution into 0 so every size is exactly 6. -/
theorem marker_size_formula (rows : List TableRow) (row : TableRow)
    (hrow : row ∈ rows) :
    fscMin rows ∈ rows.map (fun t => t.fsc_million) ∧
    fscMax rows ∈ rows.map (fun t => t.fsc_million) ∧
    (∀ t ∈ rows, fscMin rows ≤ t.fsc_million ∧ t.fsc_million ≤ fscMax rows) ∧
    (fscMin rows < fscMax rows →
      get_marker_size (fscMin rows) (fscMax rows) row.fsc_million =
        6 + (15 - 6) * ((row.fsc_million - fscMin rows) / (fscMax rows - fscMin rows))) ∧
    (fscMax rows = fscMin rows →
      get_marker_size (fscMin rows) (fscMax rows) row.fsc_million = 6) := by
  have hne : rows.map (fun t => t.fsc_million) ≠ [] := by
    simp only [ne_eq, List.map_eq_nil]
    exact List.ne_nil_of_mem hrow
  refine ⟨listMin_mem _ hne, listMax_mem _ hne, ?_, ?_, ?_⟩
  · intro t ht
    exact ⟨listMin_le _ _ (List.mem_map_of_mem _ ht),
           le_listMax _ _ (List.mem_map_of_mem _ ht)⟩
  · intro h
    unfold get_marker_size
    rw [if_pos h]
  · intro h
    unfold get_marker_size
    rw [if_neg (by rw [h]; exact lt_irrefl _)]
    norm_num

/-- Witness for C5: a singleton row set has equal min and max capacity and
its computed size collapses to 6. -/
theorem marker_size_formula_witness :
    get_marker_size (fscMin [sampleRow]) (fscMax [sampleRow]) sampleRow.fsc_million = 6 :=
  (marker_size_formula [sampleRow] sampleRow (List.mem_singleton.mpr rfl)).2.2.2.2 rfl

/-- C10: for capacities lying between the row-set minimum and maximum, the
computed marker size stays inside the closed interval from 6 to 15, it is
monotone non-decreasing in the capacity, and in the degenerate case where
minimum equals maximum it is constantly 6. -/
theorem marker_size_bounds (rows : List TableRow) (f1 f2 : ℚ)
    (h1 : fscMin rows ≤ f1) (h2 : f1 ≤ fscMax rows)
    (h12 : f1 ≤ f2) (h3 : f2 ≤ fscMax rows) :
    6 ≤ get_marker_size (fscMin rows) (fscMax rows) f1 ∧
    get_marker_size (fscMin rows) (fscMax rows) f1 ≤ 15 ∧
    get_marker_size (fscMin rows) (fscMax rows) f1 ≤
      get_marker_size (fscMin rows) (fscMax rows) f2 ∧
    (fscMin rows = fscMax rows →
      get_marker_size (fscMin rows) (fscMax rows) f1 = 6) := by
  unfold get_marker_size
  by_cases h : fscMin rows < fscMax rows
  · simp only [if_pos h]
    have hpos : (0 : ℚ) < fscMax rows - fscMin rows := by linarith
    have hr0 : 0 ≤ (f1 - fscMin rows) / (fscMax rows - fscMin rows) :=
      div_nonneg (by linarith) (le_of_lt hpos)
    have hr1 : (f1 - fscMin rows) / (fscMax rows - fscMin rows) ≤ 1 := by
      rw [div_le_one hpos]
      linarith
    have hmono : (f1 - fscMin rows) / (fscMax rows - fscMin rows) ≤
        (f2 - fscMin rows) / (fscMax rows - fscMin rows) :=
      (div_le_div_iff_of_pos_right hpos).mpr (by linarith)
    refine ⟨by linarith, by linarith, by linarith, ?_⟩
    intro heq
    exact absurd (heq ▸ h) (lt_irrefl _)
  · simp only [if_neg h]
    refine ⟨by norm_num, by norm_num, le_rfl, fun _ => by norm_num⟩

/-- Witness for C10 on a singleton row set with capacity 3. -/
theorem marker_size_bounds_witness :
    6 ≤ get_marker_size (fscMin [sampleRow]) (fscMax [sampleRow]) sampleRow.fsc_million ∧
    get_marker_size (fscMin [sampleRow]) (fscMax [sampleRow]) sampleRow.fsc_million ≤ 15 :=
  ⟨(marker_size_bounds [sampleRow] sampleRow.fsc_million sampleRow.fsc_million
      (le_of_eq rfl) (le_of_eq rfl) le_rfl (le_of_eq rfl)).1,
   (marker_size_bounds [sampleRow] sampleRow.fsc_million sampleRow.fsc_million
      (le_of_eq rfl) (le_of_eq rfl) le_rfl (le_of_eq rfl)).2.1⟩

theorem string_empty_append (s : String) : "" ++ s = s := by
  cases s
  rfl

/-- Sample report used to instantiate theorems with hypotheses: this week
80 percent, last week 60 percent. -/
def sampleReport : Report where
  dam := "Vaal Dam"
  province := "Free State"
  river := "Vaal River"
  report_date := 1
  full_storage_capacity := 3000000
  this_week := 80
  last_week := some 60
  last_year := some 70
  wall_height_m := some 63
  year_completed := some 1973
  nearest_locale := some "Deneysville"
  lat_long := some [-26, 28]

/-- C1: for a projected row whose report carries both percentages, the
Weekly Change string opens with the up arrow exactly when the difference is
positive, with the down arrow exactly when it is negative, and is the fixed
literal otherwise; the formatted number is the signed difference rendered
to one decimal, whose magnitude part magStr is the absolute difference
rounded to one decimal, followed by the percent sign.  In the decrease case
the minus sign of the signed value stands between the arrow and the
magnitude. -/
theorem weekly_change_sign_and_magnitude (r : Report) (lw : ℚ)
    (h : r.last_week = some lw) :
    (lw < r.this_week →
      (mkTableRow r).weekly_change = "🔼 " ++ fmt1 (r.this_week - lw) ++ "%" ∧
      fmt1 (r.this_week - lw) = magStr (r.this_week - lw)) ∧
    (r.this_week < lw →
      (mkTableRow r).weekly_change = "🔻 " ++ fmt1 (r.this_week - lw) ++ "%" ∧
      fmt1 (r.this_week - lw) = "-" ++ magStr (r.this_week - lw)) ∧
    (r.this_week = lw → (mkTableRow r).weekly_change = "◼ 0%") := by
  have hwc : (mkTableRow r).weekly_change = weeklyChange r.this_week lw := by
    simp [mkTableRow, h]
  refine ⟨?_, ?_, ?_⟩
  · intro hup
    constructor
    · rw [hwc]
      unfold weeklyChange
      rw [if_pos hup]
    · unfold fmt1
      rw [if_neg (by linarith)]
      exact string_empty_append _
  · intro hdown
    constructor
    · rw [hwc]
      unfold weeklyChange
      rw [if_neg (by linarith), if_pos hdown]
    · unfold fmt1
      rw [if_pos (by linarith)]
  · intro heq
    rw [hwc]
    unfold weeklyChange
    rw [if_neg (by linarith), if_neg (by linarith)]

/-- Witness for C1 on the sample report, where this week 80 exceeds last
week 60. -/
theorem weekly_change_sign_and_magnitude_witness :
    (mkTableRow sampleReport).weekly_change =
      "🔼 " ++ fmt1 (sampleReport.this_week - 60) ++ "%" ∧
    fmt1 (sampleReport.this_week - 60) = magStr (sampleReport.this_week - 60) :=
  (weekly_change_sign_and_magnitude sampleReport 60 rfl).1 (by norm_num [sampleReport])

/-- A projected row whose report has no lat_long field: the DataFrame cell
holds NaN, a float, over which the marker loop iterates first. -/
def rowNoLoc : TableRow :=
  { sampleRow with dam := "No Location Dam", lat_long := none }

/-- A projected row whose coordinate pair contains a zero component. -/
def rowZeroLoc : TableRow :=
  { sampleRow with dam := "Zero Dam", lat_long := some [0, -28] }

/-- A projected row with a valid two-component nonzero coordinate pair. -/
def rowGoodLoc : TableRow :=
  { sampleRow with lat_long := some [-26, 28] }

/-- C2 divergence: on a row whose coordinate pair is absent the marker loop
of tab2 crashes with a TypeError instead of skipping the row, because the
truthiness check iterates over the cell before the isinstance and length
guards run.  On rows whose cell is a list, the loop behaves as claimed: a
pair containing a zero component is skipped and counted, and a valid pair
yields one marker and no count. -/
theorem marker_loop_crashes_on_absent_pair :
    markerLoop 0 1 [rowNoLoc] =
      Except.error "TypeError: float object is not iterable" ∧
    markerLoop 0 1 [rowZeroLoc] = Except.ok ([], 1) ∧
    (markerLoop 0 1 [rowGoodLoc]).toOption.map (fun p => (p.1.length, p.2)) =
      some (1, 0) := by
  refine ⟨rfl, ?_, ?_⟩
  · norm_num [markerLoop, rowZeroLoc, sampleRow, Except.map]
  · norm_num [markerLoop, rowGoodLoc, sampleRow, Except.map, Except.toOption]

/-- C3 divergence: when the date and province filters match no stored
report, `get_data` does not return an empty sequence; `pd.DataFrame([])`
has no columns, so rescaling the capacity column raises a KeyError.  The
sample report is dated week 1, the query asks for week 2. -/
theorem get_data_empty_result_crashes :
    get_data [sampleReport] (some 2) none =
      Except.error "KeyError: column FSC Million m3 of an empty DataFrame" := by
  rfl

/-- C7: a trend page call with start after end fails with InvalidRange and
performs no historical fetch, whatever the store and the dam selection. -/
theorem trend_invalid_range (store : List Report) (start_date end_date : ℤ)
    (dams : List String) (h : end_date < start_date) :
    trend_page store start_date end_date dams =
      (Except.error TrendError.InvalidRange, 0) := by
  unfold trend_page
  rw [if_pos h]

/-- Witness for C7 with start 5 after end 3. -/
theorem trend_invalid_range_witness :
    trend_page [] 5 3 ["Vaal Dam"] = (Except.error TrendError.InvalidRange, 0) :=
  trend_invalid_range [] 5 3 ["Vaal Dam"] (by norm_num)

/-- C8 counterexample: a call with an empty dam selection does not always
return NoSelection; with the inverted range start 5, end 3 the page stops
with InvalidRange first, because the range validation precedes the
selection validation. -/
theorem trend_empty_selection_not_always_no_selection :
    (trend_page [] 5 3 []).1 ≠
      (Except.error TrendError.NoSelection : Except TrendError (List DamStatistic)) := by
  unfold trend_page
  norm_num
  decide

/-- C8 amended: when the date range is valid, a call with an empty dam
selection returns NoSelection before any historical fetch; and no call
with an empty dam selection ever performs the aggregation fetch, so the
aggregation never silently runs over all dams. -/
theorem trend_no_selection (store : List Report) (start_date end_date : ℤ)
    (h : start_date ≤ end_date) :
    trend_page store start_date end_date [] =
      (Except.error TrendError.NoSelection, 0) ∧
    (∀ s e : ℤ, (trend_page store s e []).2 = 0) := by
  constructor
  · unfold trend_page
    rw [if_neg (not_lt.mpr h)]
    rfl
  · intro s e
    unfold trend_page
    split_ifs with h1 h2 <;> simp_all

/-- Witness for the amended C8 with the valid range start 3, end 5. -/
theorem trend_no_selection_witness :
    trend_page [] 3 5 [] = (Except.error TrendError.NoSelection, 0) :=
  (trend_no_selection [] 3 5 (by norm_num)).1

instance : IsTotal ℤ (fun a b : ℤ => a ≥ b) :=
  ⟨fun a b => le_total b a⟩

instance : IsTrans ℤ (fun a b : ℤ => a ≥ b) :=
  ⟨fun _ _ _ h1 h2 => le_trans h2 h1⟩

instance : IsTotal String (fun a b : String => a ≤ b) :=
  ⟨fun a b => le_total a b⟩

instance : IsTrans String (fun a b : String => a ≤ b) :=
  ⟨fun _ _ _ h1 h2 => le_trans h1 h2⟩

/-- C9: against any store contents the filter resolver returns the distinct
report dates sorted descending and the distinct province names sorted
ascending in the lexicographic string order, and the latest report date is
the single most recent report_date, absent exactly when the store is
empty. -/
theorem filter_resolver_correct (store : List Report) :
    List.Sorted (fun a b : ℤ => a ≥ b) (get_filter_options store).1 ∧
    (get_filter_options store).1.Nodup ∧
    (∀ d : ℤ, d ∈ (get_filter_options store).1 ↔ ∃ r ∈ store, r.report_date = d) ∧
    List.Sorted (fun a b : String => a ≤ b) (get_filter_options store).2 ∧
    (get_filter_options store).2.Nodup ∧
    (∀ p : String, p ∈ (get_filter_options store).2 ↔ ∃ r ∈ store, r.province = p) ∧
    (store = [] → get_latest_report_date store = none) ∧
    (store ≠ [] → ∃ m : ℤ, get_latest_report_date store = some m) ∧
    (∀ m : ℤ, get_latest_report_date store = some m →
      (∃ r ∈ store, r.report_date = m) ∧ ∀ r ∈ store, r.report_date ≤ m) := by
  refine ⟨?_, ?_, ?_, ?_, ?_, ?_, ?_, ?_, ?_⟩
  · exact List.sorted_insertionSort _ _
  · exact ((List.perm_insertionSort _ _).nodup_iff).mpr (List.nodup_dedup _)
  · intro d
    show d ∈ List.insertionSort _ (store.map (fun r => r.report_date)).dedup ↔ _
    rw [(List.perm_insertionSort _ _).mem_iff, List.mem_dedup, List.mem_map]
  · exact List.sorted_insertionSort _ _
  · exact ((List.perm_insertionSort _ _).nodup_iff).mpr (List.nodup_dedup _)
  · intro p
    show p ∈ List.insertionSort _ (store.map (fun r => r.province)).dedup ↔ _
    rw [(List.perm_insertionSort _ _).mem_iff, List.mem_dedup, List.mem_map]
  · intro h
    rw [h]
    rfl
  · intro h
    cases store with
    | nil => exact absurd rfl h
    | cons r rs => exact ⟨_, rfl⟩
  · intro m hm
    cases store with
    | nil => exact absurd hm (by simp [get_latest_report_date])
    | cons r rs =>
      have hm' : ((rs.map (fun x => x.report_date)).foldl max r.report_date) = m := by
        have : get_latest_report_date (r :: rs) =
            some ((rs.map (fun x => x.report_date)).foldl max r.report_date) := rfl
        rw [this] at hm
        exact Option.some_injective _ hm
      constructor
      · have hmem := foldl_max_mem (rs.map (fun x => x.report_date)) r.report_date
        rw [hm'] at hmem
        rcases List.mem_cons.mp hmem with h' | h'
        · exact ⟨r, List.mem_cons_self _ _, h'.symm⟩
        · rcases List.mem_map.mp h' with ⟨x, hx, hxm⟩
          exact ⟨x, List.mem_cons_of_mem _ hx, hxm⟩
      · intro x hx
        have : x.report_date ∈ r.report_date :: rs.map (fun y => y.report_date) := by
          rcases List.mem_cons.mp hx with h' | h'
          · rw [h']
            exact List.mem_cons_self _ _
          · exact List.mem_cons_of_mem _ (List.mem_map_of_mem _ h')
        have hge := foldl_max_ge (rs.map (fun y => y.report_date)) r.report_date _ this
        rw [hm'] at hge
        exact hge

/-- Witness for C9: the single-report store has latest date 1 and it bounds
every report date. -/
theorem filter_resolver_correct_witness :
    (∃ r ∈ [sampleReport], r.report_date = 1) ∧
    ∀ r ∈ [sampleReport], r.report_date ≤ 1 :=
  (filter_resolver_correct [sampleReport]).2.2.2.2.2.2.2.2 1 rfl

theorem sorted_rel_getLast {α : Type} {r : α → α → Prop} (hrefl : ∀ a : α, r a a) :
    ∀ (l : List α) (hl : List.Sorted r l) (hne : l ≠ []) (a : α), a ∈ l →
      r a (l.getLast hne) := by
  intro l
  induction l with
  | nil => intro _ hne; exact absurd rfl hne
  | cons x xs ih =>
    intro hl hne a ha
    cases xs with
    | nil =>
      have hax : a = x := by simpa using ha
      rw [hax]
      exact hrefl x
    | cons y ys =>
      rw [List.getLast_cons (List.cons_ne_nil y ys)]
      rcases List.mem_cons.mp ha with h' | h'
      · rw [h']
        exact (List.sorted_cons.mp hl).1 _ (List.getLast_mem _)
      · exact ih (List.sorted_cons.mp hl).2 (List.cons_ne_nil y ys) a h'

theorem damDateLE_refl (a : Report) : damDateLE a a :=
  Or.inr ⟨rfl, le_refl _⟩

theorem damStat_dam (hist : List Report) (d : String) (st : DamStatistic)
    (h : damStat hist d = some st) : st.dam = d := by
  unfold damStat at h
  cases hfilter : hist.filter (fun r => r.dam == d) with
  | nil =>
    rw [hfilter] at h
    simp at h
  | cons f rest =>
    rw [hfilter] at h
    simp only [Option.some.injEq] at h
    rw [← h]

theorem damStat_eq_none (hist : List Report) (d : String)
    (h : hist.filter (fun r => r.dam == d) = []) : damStat hist d = none := by
  unfold damStat
  rw [h]

/-- The this_week series of one dam, in the order of its reports. -/
def damVals (first : Report) (rest : List Report) : List ℚ :=
  (first :: rest).map (fun r => r.this_week)

/-- Specification of one summary-statistics entry over the nonempty report
list of a single dam: province and river from the first report, the least
and greatest weekly percentages, the arithmetic mean (stated as mean times
count equals sum), the last value of the series as current, the sample
variance with denominator n - 1 present exactly from two points on (the
standard deviation pandas shows is its square root), and the point count. -/
def StatSpec (first : Report) (rest : List Report) (st : DamStatistic) : Prop :=
  st.province = first.province ∧
  st.river = first.river ∧
  st.minPct ∈ damVals first rest ∧
  (∀ v ∈ damVals first rest, st.minPct ≤ v) ∧
  st.maxPct ∈ damVals first rest ∧
  (∀ v ∈ damVals first rest, v ≤ st.maxPct) ∧
  st.averagePct * ((damVals first rest).length : ℚ) = (damVals first rest).sum ∧
  st.currentPct = ((first :: rest).getLast (List.cons_ne_nil first rest)).this_week ∧
  (2 ≤ (damVals first rest).length →
    st.stdDevSq = some (((damVals first rest).map
      (fun v => (v - st.averagePct) ^ 2)).sum / (((damVals first rest).length : ℚ) - 1))) ∧
  ((damVals first rest).length < 2 → st.stdDevSq = none) ∧
  st.dataPoints = (damVals first rest).length

theorem damStat_spec (hist : List Report) (dam : String) (first : Report)
    (rest : List Report)
    (hfilter : hist.filter (fun r => r.dam == dam) = first :: rest) :
    ∃ st : DamStatistic, damStat hist dam = some st ∧ st.dam = dam ∧
      StatSpec first rest st := by
  have hd : damStat hist dam = some
      { dam := dam
        province := first.province
        river := first.river
        minPct := listMin (damVals first rest)
        maxPct := listMax (damVals first rest)
        averagePct := (damVals first rest).sum / ((damVals first rest).length : ℚ)
        currentPct := ((first :: rest).getLast (List.cons_ne_nil first rest)).this_week
        stdDevSq :=
          if 2 ≤ (damVals first rest).length then
            some (((damVals first rest).map
              (fun v => (v - (damVals first rest).sum /
                ((damVals first rest).length : ℚ)) ^ 2)).sum /
              (((damVals first rest).length : ℚ) - 1))
          else none
        dataPoints := (damVals first rest).length } := by
    unfold damStat
    rw [hfilter]
    rfl
  have hvne : damVals first rest ≠ [] := by
    simp [damVals]
  have hlen : ((damVals first rest).length : ℚ) ≠ 0 := by
    have : (damVals first rest).length = rest.length + 1 := by
      simp [damVals]
    rw [this]
    exact_mod_cast Nat.succ_ne_zero rest.length
  refine ⟨_, hd, rfl, rfl, rfl, listMin_mem _ hvne, ?_, listMax_mem _ hvne, ?_, ?_,
    rfl, ?_, ?_, rfl⟩
  · intro v hv
    exact listMin_le _ _ hv
  · intro v hv
    exact le_listMax _ _ hv
  · exact div_mul_cancel₀ _ hlen
  · intro h2
    show (if 2 ≤ (damVals first rest).length then _ else none) = _
    rw [if_pos h2]
  · intro h2
    show (if 2 ≤ (damVals first rest).length then _ else none) = _
    rw [if_neg (by omega)]

/-- C6: for a non-empty dam selection the trend aggregator fetches exactly
the stored reports whose dam is among the selected names and whose
report_date lies in the inclusive window, sorted ascending by dam then
report_date; every selected dam with at least one report in range
contributes a statistics entry satisfying StatSpec, whose current value is
the report with the greatest date of that dam; and a selected dam with no
report in range is omitted from the statistics without aborting the
aggregation. -/
theorem trend_aggregator_correct (store : List Report) (names : List String)
    (s e : ℤ) (hne : names ≠ []) :
    (∀ r : Report, r ∈ get_historical_data store names s e ↔
      (r ∈ store ∧ r.dam ∈ names ∧ s ≤ r.report_date ∧ r.report_date ≤ e)) ∧
    (get_historical_data store names s e).Perm
      (store.filter (fun r =>
        names.contains r.dam &&
        decide (s ≤ r.report_date) && decide (r.report_date ≤ e))) ∧
    List.Sorted damDateLE (get_historical_data store names s e) ∧
    (∀ dam ∈ names,
      ((get_historical_data store names s e).filter (fun r => r.dam == dam) = [] →
        ∀ st ∈ stats_data (get_historical_data store names s e) names, st.dam ≠ dam) ∧
      (∀ first rest,
        (get_historical_data store names s e).filter (fun r => r.dam == dam) =
          first :: rest →
        ∃ st ∈ stats_data (get_historical_data store names s e) names,
          st.dam = dam ∧ StatSpec first rest st ∧
          ∀ r' ∈ first :: rest, r'.report_date ≤
            ((first :: rest).getLast (List.cons_ne_nil first rest)).report_date)) := by
  have hperm : (get_historical_data store names s e).Perm
      (store.filter (fun r =>
        names.contains r.dam &&
        decide (s ≤ r.report_date) && decide (r.report_date ≤ e))) :=
    List.perm_insertionSort _ _
  have hsorted : List.Sorted damDateLE (get_historical_data store names s e) :=
    List.sorted_insertionSort _ _
  refine ⟨?_, hperm, hsorted, ?_⟩
  · intro r
    rw [hperm.mem_iff, List.mem_filter]
    simp only [Bool.and_eq_true, decide_eq_true_eq, List.elem_iff, List.contains]
    tauto
  · intro dam hdam
    constructor
    · intro hempty st hst hsd
      rcases List.mem_filterMap.mp hst with ⟨d', hd', hsome⟩
      have : st.dam = d' := damStat_dam _ _ _ hsome
      rw [hsd] at this
      rw [← this] at hsome
      rw [damStat_eq_none _ _ hempty] at hsome
      exact Option.noConfusion hsome
    · intro first rest hfilter
      rcases damStat_spec _ _ _ _ hfilter with ⟨st, hsome, hdam', hspec⟩
      refine ⟨st, List.mem_filterMap.mpr ⟨dam, hdam, hsome⟩, hdam', hspec, ?_⟩
      intro r' hr'
      have hddsorted : List.Sorted damDateLE
          ((get_historical_data store names s e).filter (fun r => r.dam == dam)) :=
        hsorted.filter _
      rw [hfilter] at hddsorted
      have hrel := sorted_rel_getLast damDateLE_refl (first :: rest) hddsorted
        (List.cons_ne_nil first rest) r' hr'
      have hdams : ∀ x ∈ first :: rest, x.dam = dam := by
        intro x hx
        rw [← hfilter] at hx
        have := (List.mem_filter.mp hx).2
        simpa using this
      have h1 := hdams r' hr'
      have h2 := hdams _ (List.getLast_mem (List.cons_ne_nil first rest))
      rcases hrel with hlt | ⟨_, hle⟩
      · rw [h1, h2] at hlt
        exact absurd hlt (lt_irrefl _)
      · exact hle

/-- Witness for C6: a single selected dam over a singleton store. -/
theorem trend_aggregator_correct_witness :
    sampleReport ∈ get_historical_data [sampleReport] ["Vaal Dam"] 0 2 ↔
      (sampleReport ∈ [sampleReport] ∧ sampleReport.dam ∈ ["Vaal Dam"] ∧
        0 ≤ sampleReport.report_date ∧ sampleReport.report_date ≤ 2) :=
  (trend_aggregator_correct [sampleReport] ["Vaal Dam"] 0 2 (by decide)).1
    sampleReport
